import Mathlib

/-
Shallow embedding of the thai-baht-textizer Go package (thbtextizer.go, the
version with `AllowOverflow` / `MaxSupportedValue`).  Go strings are modelled
as `List Char`; the package-level mutable variable `AllowOverflow` is threaded
through as an explicit parameter.  The `log.Printf` warning gated by
`EnableWarningLogs` is a side effect with no influence on any return value and
is not modelled.  Go's `int` is modelled as 64-bit (`Int` with explicit
wrapping mod 2^64 where Go overflow can occur).  Character-level modelling of
Go strings agrees with Go's byte-level semantics on the ASCII inputs that all
theorems below quantify over.
-/

/-- Go strings are modelled as lists of characters (runes). -/
abbrev Str := List Char

/-- Shorthand turning a Lean string literal into the `List Char` model. -/
def str (s : String) : Str := s.data

/- ### Library-level helpers: Go standard library functions used by the source -/

/-- Numeric value of a digit character (only meaningful for `'0'`-`'9'`). -/
def digitVal (c : Char) : Nat := c.toNat - 48

/-- Returns `true` iff `c` is one of `'0'`-`'9'` (the check `strconv` performs per rune). -/
def isDigitChar (c : Char) : Bool := decide ('0' ≤ c) && decide (c ≤ '9')

/-- Base-10 accumulation over a digit string, as `strconv` parse loops do. -/
def digitsVal (cs : Str) : Nat := cs.foldl (fun a c => a * 10 + digitVal c) 0

/-- Go `len(s)` on a string counts UTF-8 bytes, not runes. -/
def utf8Len (cs : Str) : Nat := (cs.map (fun c => c.utf8Size)).sum

/-- Go `strconv.ParseUint(s, 10, 64)`: digits only, non-empty, value below 2^64;
`none` models a non-nil error. -/
def parseUint64? (cs : Str) : Option Nat :=
  if cs = [] then none
  else if cs.all isDigitChar then
    let v := digitsVal cs
    if v < 2 ^ 64 then some v else none
  else none

/-- Unsigned body of `strconv.Atoi`: digits only and non-empty. -/
def natPart? (cs : Str) : Option Nat :=
  if cs ≠ [] ∧ cs.all isDigitChar = true then some (digitsVal cs) else none

/-- Go `strconv.Atoi` (= `ParseInt(s, 10, 0)` with 64-bit `int`): optional sign,
digits, and an int64 range check; `none` models a non-nil error. -/
def atoi? (cs : Str) : Option Int :=
  match cs with
  | [] => none
  | c :: rest =>
    if c = '+' then
      (natPart? rest).bind fun v =>
        if v ≤ 9223372036854775807 then some (Int.ofNat v) else none
    else if c = '-' then
      (natPart? rest).bind fun v =>
        if v ≤ 9223372036854775808 then some (-(Int.ofNat v)) else none
    else
      (natPart? cs).bind fun v =>
        if v ≤ 9223372036854775807 then some (Int.ofNat v) else none

/-- Go `strconv.Itoa`. -/
def itoa (n : Int) : Str :=
  if n < 0 then '-' :: (Nat.repr (-n).toNat).data else (Nat.repr n.toNat).data

/-- Wrap-around of Go's 64-bit `int` arithmetic. -/
def int64Wrap (x : Int) : Int := (x + 2 ^ 63) % 2 ^ 64 - 2 ^ 63

/-- Go `fmt.Sprintf("%02d", v)` for a 64-bit value. -/
def pad02 (v : Int) : Str :=
  if v < 0 then '-' :: (Nat.repr (-v).toNat).data
  else if v < 10 then '0' :: (Nat.repr v.toNat).data
  else (Nat.repr v.toNat).data

/-- Go `strings.Split(s, sep)` for a one-character separator. -/
def splitOnChar (sep : Char) : Str → List Str
  | [] => [[]]
  | c :: cs =>
    let rest := splitOnChar sep cs
    if c = sep then [] :: rest
    else (c :: rest.headD []) :: rest.tail

/-- Go `strings.ReplaceAll(s, ",", "")` as performed by `Convert`. -/
def removeCommas (cs : Str) : Str := cs.filter (fun c => decide (c ≠ ','))

instance {α β : Type} [DecidableEq α] [DecidableEq β] : DecidableEq (Except α β) := fun x y =>
  match x, y with
  | .error a, .error b => if h : a = b then .isTrue (by rw [h]) else .isFalse (by simp [h])
  | .error _, .ok _ => .isFalse (by simp)
  | .ok _, .error _ => .isFalse (by simp)
  | .ok a, .ok b => if h : a = b then .isTrue (by rw [h]) else .isFalse (by simp [h])

/- ### The embedded source, in source order -/

inductive DecimalRoundingMode where
  | RoundHalf
  | RoundDown
  | RoundUp
deriving DecidableEq

export DecimalRoundingMode (RoundHalf RoundDown RoundUp)

/-- Constant `MaxSupportedValue` = "9223372036854775807" (19 digits, int64 maximum). -/
def MaxSupportedValue : Str := str "9223372036854775807"

/-- The Go map `digitNames` (absent keys give the zero value `""`). -/
def digitNames (d : Nat) : Str :=
  match d with
  | 1 => str "หนึ่ง"
  | 2 => str "สอง"
  | 3 => str "สาม"
  | 4 => str "สี่"
  | 5 => str "ห้า"
  | 6 => str "หก"
  | 7 => str "เจ็ด"
  | 8 => str "แปด"
  | 9 => str "เก้า"
  | _ => []

/-- The Go map `unitNames` (absent keys give the zero value `""`). -/
def unitNames (u : Nat) : Str :=
  match u with
  | 0 => []
  | 1 => str "สิบ"
  | 2 => str "ร้อย"
  | 3 => str "พัน"
  | 4 => str "หมื่น"
  | 5 => str "แสน"
  | 6 => str "ล้าน"
  | _ => []

/-- Go lexicographic (bytewise) string comparison `a < b`; on the ASCII strings
compared by `validateMaxValue` bytewise and runewise orders coincide. -/
def goStringLT : Str → Str → Bool
  | [], [] => false
  | [], _ :: _ => true
  | _ :: _, [] => false
  | a :: as, b :: bs => if a = b then goStringLT as bs else decide (a.toNat < b.toNat)

/-- Function `validateMaxValue` from the source: checks the integer part (before any
decimal point, leading zeros removed) against `MaxSupportedValue`.  Go's
`len()` counts UTF-8 bytes, hence the `utf8Len` lengths here. -/
def validateMaxValue (amountStr : Str) : Option Str :=
  let parts := splitOnChar '.' amountStr
  let integerPart := parts.headD []
  let integerPart := integerPart.dropWhile (fun c => decide (c = '0'))
  let integerPart := if integerPart = [] then str "0" else integerPart
  if utf8Len integerPart > utf8Len MaxSupportedValue then
    some (str "input number exceeds maximum supported value of " ++ MaxSupportedValue
      ++ str " (got " ++ (Nat.repr (utf8Len integerPart)).data
      ++ str " digits, max " ++ (Nat.repr (utf8Len MaxSupportedValue)).data ++ str " digits)")
  else if utf8Len integerPart = utf8Len MaxSupportedValue then
    match parseUint64? integerPart, parseUint64? MaxSupportedValue with
    | some inputNum, some maxNum =>
      if inputNum > maxNum then
        some (str "input number exceeds maximum supported value of " ++ MaxSupportedValue)
      else none
    | _, _ =>
      if goStringLT MaxSupportedValue integerPart then
        some (str "input number exceeds maximum supported value of " ++ MaxSupportedValue)
      else none
  else none

/-- Function `formatDecimalPartWithRounding` from the source.  The Go globals
`AllowOverflow` / `EnableWarningLogs` become the explicit parameter
`allowOverflow` (the warning log has no effect on the returned pair). -/
def formatDecimalPartWithRounding (decimal : Str) (roundingMode : DecimalRoundingMode)
    (allowOverflow : Bool) : Str × Bool :=
  if decimal.length = 0 then (str "00", false)
  else if decimal.length = 1 then (decimal ++ str "0", false)
  else if decimal.length = 2 then (decimal, false)
  else
    let first2Digits := decimal.take 2
    let thirdDigit : Int := (atoi? [decimal.getD 2 '0']).getD 0
    let value : Int := (atoi? first2Digits).getD 0
    match roundingMode with
    | RoundDown => (first2Digits, false)
    | RoundUp =>
      if decimal.length > 2 ∧ thirdDigit > 0 then
        let value := value + 1
        if value ≥ 100 then
          if allowOverflow then (str "00", true) else (pad02 99, false)
        else (pad02 value, false)
      else (pad02 value, false)
    | RoundHalf =>
      if thirdDigit ≥ 5 then
        let value := value + 1
        if value ≥ 100 then
          if allowOverflow then (str "00", true) else (pad02 99, false)
        else (pad02 value, false)
      else (pad02 value, false)

/-- Function `isValidNumber` from the source. -/
def isValidNumber (s : Str) : Bool :=
  s.all (fun c => !(decide (c < '0') || decide (c > '9')))

/-- Function `parseDigits` from the source (`strconv.Atoi` on each one-rune string,
errors ignored, which yields 0 for a non-digit rune). -/
def parseDigits (numberStr : Str) : List Nat :=
  numberStr.map (fun c => ((atoi? [c]).getD 0).toNat)

/-- The window `digits[max(startPos-6,0) : startPos]` taken by both Go loops. -/
def sixWindow (digits : List Nat) (startPos : Nat) : List Nat :=
  (digits.drop (startPos - 6)).take (startPos - (startPos - 6))

/-- The loop inside `countNonZeroGroups`, walking `startPos` down by 6.  The
recursion is made structural on `fuel`; any `fuel ≥ startPos` bounds the
iteration count, so the loop semantics do not depend on it. -/
def countNonZeroGroupsLoop (digits : List Nat) (fuel startPos count : Nat) : Nat :=
  match fuel with
  | 0 => count
  | fuel + 1 =>
    if startPos = 0 then count
    else
      let group := sixWindow digits startPos
      countNonZeroGroupsLoop digits fuel (startPos - 6)
        (if group.any (fun d => d != 0) then count + 1 else count)

/-- Function `countNonZeroGroups` from the source. -/
def countNonZeroGroups (digits : List Nat) : Nat :=
  countNonZeroGroupsLoop digits digits.length digits.length 0

/-- Function `convertDigitAtPosition` from the source. -/
def convertDigitAtPosition (digit unitIndex positionFromRight totalDigits : Nat) : Str :=
  let digitName := digitNames digit
  let unitName := unitNames unitIndex
  if unitIndex = 0 then
    if digit = 1 ∧ totalDigits > 1 ∧ positionFromRight = 0 then str "เอ็ด" ++ unitName
    else digitName ++ unitName
  else if unitIndex = 1 then
    if digit = 1 then unitName
    else if digit = 2 then str "ยี่" ++ unitName
    else digitName ++ unitName
  else digitName ++ unitName

/-- The `for position, digit := range digits` loop of `convertSixDigitGroup`:
skips zero digits, converts the rest, keeps non-empty texts. -/
def sixGroupTokens (totalDigits : Nat) : List Nat → Nat → List Str
  | [], _ => []
  | d :: rest, position =>
    if d = 0 then sixGroupTokens totalDigits rest (position + 1)
    else
      let positionFromRight := totalDigits - position - 1
      let t := convertDigitAtPosition d (positionFromRight % 6) positionFromRight totalDigits
      if t = [] then sixGroupTokens totalDigits rest (position + 1)
      else t :: sixGroupTokens totalDigits rest (position + 1)

/-- Function `convertSixDigitGroup` from the source (`strings.Join(result, "")`). -/
def convertSixDigitGroup (digits : List Nat) : Str :=
  List.flatten (sixGroupTokens digits.length digits 0)

/-- The `for i := 0; i < groupsFromRight; i++ { groupText += "ล้าน" }` loop. -/
def appendLan (t : Str) : Nat → Str
  | 0 => t
  | n + 1 => appendLan t n ++ str "ล้าน"

/-- The main loop of `buildThaiText`: walks `startPos` down by 6 while
prepending the finished group texts to `result`.  As in
`countNonZeroGroupsLoop`, the recursion is structural on `fuel` and any
`fuel ≥ startPos` yields the loop's semantics. -/
def buildThaiTextLoop (digits : List Nat) (fuel startPos groupsFromRight : Nat)
    (result : List Str) : List Str :=
  match fuel with
  | 0 => result
  | fuel + 1 =>
    if startPos = 0 then result
    else
      let group := sixWindow digits startPos
      let groupText := convertSixDigitGroup group
      let result :=
        if groupText = [] then result
        else
          let groupText :=
            if countNonZeroGroups digits > 1 then
              if groupsFromRight > 0 then groupText ++ str "ล้าน" else groupText
            else appendLan groupText groupsFromRight
          groupText :: result
      buildThaiTextLoop digits fuel (startPos - 6) (groupsFromRight + 1) result

/-- Function `buildThaiText` from the source. -/
def buildThaiText (digits : List Nat) : Str :=
  if digits.length ≤ 6 then convertSixDigitGroup digits
  else List.flatten (buildThaiTextLoop digits digits.length digits.length 0 [])

/-- Function `convertIntegerNumber` from the source. -/
def convertIntegerNumber (numberStr : Str) : Str :=
  if !isValidNumber numberStr then []
  else
    let digits := parseDigits numberStr
    if digits.length = 0 then [] else buildThaiText digits

/-- Function `convertDecimalPart` from the source. -/
def convertDecimalPart (decimalStr : Str) : Str :=
  if !isValidNumber decimalStr then []
  else
    let value : Int := (atoi? decimalStr).getD 0
    if value = 1 then str "หนึ่ง"
    else if value = 11 then str "สิบเอ็ด"
    else if 12 ≤ value ∧ value ≤ 19 then str "สิบ" ++ digitNames (value - 10).toNat
    else if 21 ≤ value ∧ value ≤ 99 ∧ value % 10 = 1 then
      if value / 10 = 2 then str "ยี่สิบเอ็ด"
      else digitNames (value / 10).toNat ++ str "สิบเอ็ด"
    else convertIntegerNumber decimalStr

/-- The overflow block of `Convert` (lines "if overflow { ... }"): when the
decimal step reports a carry and `strconv.Atoi` accepts the integer part, the
integer part becomes `Itoa(integerNum + 1)` (with Go's wrapping `int`
addition) and the satang resets to `"00"`; otherwise both keep their values. -/
def applyOverflow (integerPart : Str) (fd : Str × Bool) : Str × Str :=
  if fd.2 then
    match atoi? integerPart with
    | some integerNum => (itoa (int64Wrap (integerNum + 1)), str "00")
    | none => (integerPart, fd.1)
  else (integerPart, fd.1)

/-- The text-assembly tail of `Convert`: baht text (with the `"ศูนย์"`
fallback), `"บาท"`, then `"ถ้วน"` or the satang text. -/
def assembleText (integerPart decimalPart : Str) : Str :=
  let bahtText := convertIntegerNumber integerPart
  let bahtText := if bahtText = [] then str "ศูนย์" else bahtText
  let bahtText := bahtText ++ str "บาท"
  if decimalPart = [] ∨ decimalPart = str "00" then bahtText ++ str "ถ้วน"
  else
    let satangText := convertDecimalPart decimalPart
    let satangText := if satangText = [] then str "ศูนย์" else satangText
    bahtText ++ satangText ++ str "สตางค์"

/-- Function `Convert` from the source, instantiated at string input (for which
`convertToString` is the identity); the Go global `AllowOverflow` is the
explicit `allowOverflow` parameter, and the variadic `roundingMode` the
explicit `mode` parameter. -/
def Convert (amount : Str) (mode : DecimalRoundingMode) (allowOverflow : Bool) :
    Except Str Str :=
  let amountStr := removeCommas amount
  match validateMaxValue amountStr with
  | some err => .error err
  | none =>
    let parts := splitOnChar '.' amountStr
    let integerPart := parts.headD []
    let state :=
      if parts.length > 1 then
        applyOverflow integerPart
          (formatDecimalPartWithRounding (parts.getD 1 []) mode allowOverflow)
      else (integerPart, [])
    .ok (assembleText state.1 state.2)

/- ### Specification-side definitions, written from the claims' wording.
These are deliberately derived from the natural-language spec, to be compared
with the source-derived definitions above. -/

/-- Spec: the integer part of an input is everything before the first `'.'`. -/
def integerPartOf (s : Str) : Str := (splitOnChar '.' s).headD []

/-- Spec: the integer part "after removing leading zeros" (an all-zero part
counts as the single digit `"0"`). -/
def trimZeros (cs : Str) : Str :=
  let t := cs.dropWhile (fun c => decide (c = '0'))
  if t = [] then str "0" else t

/-- Spec (claim C2): `V` = integer value of the first two fractional digits. -/
def specV (ds : Str) : Nat := 10 * digitVal (ds.getD 0 '0') + digitVal (ds.getD 1 '0')

/-- Spec (claim C2): `D` = the third fractional digit. -/
def specD (ds : Str) : Nat := digitVal (ds.getD 2 '0')

/-- Spec (claim C2): the rounded value `V2` (called V' in the spec) per mode. -/
def specRound (ds : Str) (m : DecimalRoundingMode) : Nat :=
  match m with
  | RoundDown => specV ds
  | RoundUp => if specD ds > 0 then specV ds + 1 else specV ds
  | RoundHalf => if specD ds ≥ 5 then specV ds + 1 else specV ds

/-- The character of a decimal digit 0-9. -/
def digitChar (d : Nat) : Char := Char.ofNat (48 + d)

/-- Spec (claim C2): the zero-padded two-character string of a value 0-99. -/
def padTwoSpec (v : Nat) : Str := [digitChar (v / 10), digitChar (v % 10)]

/-- Spec (claim C2): the decimal rounder as described by the claim, casewise on
the number of fractional digits, with `V`, `D`, the three modes and the
overflow policy. -/
def decimalRoundSpec (ds : Str) (mode : DecimalRoundingMode) (allow : Bool) : Str × Bool :=
  if ds.length = 0 then (str "00", false)
  else if ds.length = 1 then (ds ++ str "0", false)
  else if ds.length = 2 then (ds, false)
  else
    let V2 := specRound ds mode
    if V2 = 100 then (if allow then (str "00", true) else (str "99", false))
    else (padTwoSpec V2, false)

/-- Spec (claim C8): the word emitted for digit `d` at position-from-right `p`
in a group of `len` digits. -/
def specWordAt (d p len : Nat) : Str :=
  if d = 0 then []
  else if p = 0 then (if d = 1 ∧ len > 1 then str "เอ็ด" else digitNames d)
  else if p = 1 then
    (if d = 1 then unitNames 1
     else if d = 2 then str "ยี่" ++ unitNames 1
     else digitNames d ++ unitNames 1)
  else digitNames d ++ unitNames p

/-- Spec (claim C8): concatenate the per-digit words most-significant-first. -/
def sixDigitGroupSpec (digits : List Nat) : Str :=
  List.flatten ((List.range digits.length).map fun i =>
    specWordAt (digits.getD i 0) (digits.length - 1 - i) digits.length)

/-- Spec (claim C1): number of 6-digit groups when partitioning from the right. -/
def numGroups (digits : List Nat) : Nat := (digits.length + 5) / 6

/-- Spec (claim C1): the 6-digit group at distance `g` from the right. -/
def groupAt (digits : List Nat) (g : Nat) : List Nat :=
  let hi := digits.length - 6 * g
  (digits.drop (hi - 6)).take (hi - (hi - 6))

/-- Spec (claim C1): `nonZeroGroupCount`, the number of groups containing a
non-zero digit. -/
def nonZeroGroupCountSpec (digits : List Nat) : Nat :=
  ((List.range (numGroups digits)).filter
    (fun g => (groupAt digits g).any (fun d => d != 0))).length

/-- Spec (claim C1): `g` repetitions of the million word. -/
def lanRepeat (g : Nat) : Str := List.flatten (List.replicate g (str "ล้าน"))

/-- Spec (claim C1): the million suffix of the group at distance `g`: one
"ล้าน" per non-rightmost group when several groups are non-zero, else `g`
repetitions. -/
def millionSuffixSpec (digits : List Nat) (g : Nat) : Str :=
  if nonZeroGroupCountSpec digits > 1 then (if g = 0 then [] else str "ล้าน")
  else lanRepeat g

/-- Spec (claim C1): the text contributed by the group at distance `g`
(nothing for an all-zero group). -/
def millionTokenSpec (digits : List Nat) (g : Nat) : Str :=
  if (groupAt digits g).any (fun d => d != 0) then
    convertSixDigitGroup (groupAt digits g) ++ millionSuffixSpec digits g
  else []

/-- Spec (claim C1): group texts concatenated most-significant-first. -/
def millionRuleSpec (digits : List Nat) : Str :=
  List.flatten (((List.range (numGroups digits)).reverse).map (millionTokenSpec digits))

/- ### Claim theorems -/

/-- Claim C10: for every string input `s` and every rounding mode (and either
overflow policy), `Convert` on `s` equals `Convert` on `s` with every `','`
removed — the core strips thousands-separator commas itself before validation
and conversion. -/
theorem spec2_C10 (s : Str) (m : DecimalRoundingMode) (o : Bool) :
    Convert s m o = Convert (removeCommas s) m o := by
  have h : removeCommas (removeCommas s) = removeCommas s := by
    simp [removeCommas, List.filter_filter]
  unfold Convert
  rw [h]

/-- Claim C7: for every digit sequence of length at most 6 the full grouping
engine `buildThaiText` returns exactly the text of the six-digit group
converter, with no million suffix. -/
theorem spec2_C7 (digits : List Nat) (h : digits.length ≤ 6) :
    buildThaiText digits = convertSixDigitGroup digits := by
  unfold buildThaiText
  rw [if_pos h]

/-- Witness for claim C7 at the concrete group `[1,2,3,4,5,6]`. -/
theorem spec2_C7_witness : ([1, 2, 3, 4, 5, 6] : List Nat).length ≤ 6 ∧
    buildThaiText [1, 2, 3, 4, 5, 6] = convertSixDigitGroup [1, 2, 3, 4, 5, 6] :=
  ⟨by decide, spec2_C7 [1, 2, 3, 4, 5, 6] (by decide)⟩

/-- Claim C4 counterexample: two `Convert` calls with the identical amount
`"100.995"` and identical rounding mode `RoundHalf` return different texts
depending on the package-level mutable `AllowOverflow` flag (modelled as the
third parameter), so conversion is not deterministic over the declared inputs
alone. -/
theorem spec2_C4_counterexample :
    Convert (str "100.995") RoundHalf false = .ok (str "หนึ่งร้อยบาทเก้าสิบเก้าสตางค์") ∧
    Convert (str "100.995") RoundHalf true = .ok (str "หนึ่งร้อยเอ็ดบาทถ้วน") ∧
    Convert (str "100.995") RoundHalf false ≠ Convert (str "100.995") RoundHalf true :=
  ⟨by decide, by decide, by decide⟩

/-- Claim C4 (amended): `Convert` is deterministic over the amount, the
rounding mode AND the value of the package-level `AllowOverflow` flag: two
calls agreeing on all three always return the identical result. -/
theorem spec2_C4 (a₁ a₂ : Str) (m₁ m₂ : DecimalRoundingMode) (o₁ o₂ : Bool)
    (ha : a₁ = a₂) (hm : m₁ = m₂) (ho : o₁ = o₂) :
    Convert a₁ m₁ o₁ = Convert a₂ m₂ o₂ := by
  subst ha; subst hm; subst ho; rfl

/-- Witness for the amended claim C4 at a concrete call. -/
theorem spec2_C4_witness :
    str "25.50" = str "25.50" ∧ RoundHalf = RoundHalf ∧ true = true ∧
    Convert (str "25.50") RoundHalf true = Convert (str "25.50") RoundHalf true :=
  ⟨rfl, rfl, rfl, spec2_C4 _ _ _ _ _ _ rfl rfl rfl⟩

/-- Claim C5 (evaluating the code at the failing input): the rounding carry is
applied with `strconv.Atoi` and native 64-bit `+ 1`, so at the documented
maximum `"9223372036854775807"` (with satang `"995"`, Nearest, overflow
allowed) the increment silently wraps to the negative int64 minimum and
`Convert` returns `"ศูนย์บาทถ้วน"`, while converting the true successor
`"9223372036854775808"` is rejected; one digit-growth step below the boundary
(`"999999.995"` → `"หนึ่งล้านบาทถ้วน"`) still behaves as the claim states. -/
theorem spec2_C5 :
    Convert (str "9223372036854775807.995") RoundHalf true = .ok (str "ศูนย์บาทถ้วน") ∧
    Convert (str "9223372036854775808") RoundHalf true
      = .error (str "input number exceeds maximum supported value of 9223372036854775807") ∧
    Convert (str "999999.995") RoundHalf true = .ok (str "หนึ่งล้านบาทถ้วน") :=
  ⟨by decide, by decide, by decide⟩

/-- Claim C3 counterexample: when overflow is disallowed and rounding forces
the satang to clamp at 99 (input `"995"`, original `V = 99`, Nearest mode),
the boolean returned by the rounding step is `false`, not `true`; the returned
boolean is `true` precisely in the opposite, overflow-allowed carry case.  The
conversion result carries no clamped flag at all. -/
theorem spec2_C3_counterexample :
    formatDecimalPartWithRounding (str "995") RoundHalf false = (str "99", false) ∧
    formatDecimalPartWithRounding (str "995") RoundHalf true = (str "00", true) ∧
    Convert (str "955.995") RoundHalf false = .ok (str "เก้าร้อยห้าสิบห้าบาทเก้าสิบเก้าสตางค์") :=
  ⟨by decide, by decide, by decide⟩

/- ### Digit-string parsing lemmas -/

theorem isDigitChar_toNat {c : Char} (h : isDigitChar c = true) :
    48 ≤ c.toNat ∧ c.toNat ≤ 57 := by
  simp only [isDigitChar, Bool.and_eq_true, decide_eq_true_eq] at h
  exact h

theorem digitVal_le {c : Char} (h : isDigitChar c = true) : digitVal c ≤ 9 := by
  have := isDigitChar_toNat h
  unfold digitVal
  omega

theorem digitChar_digitVal {c : Char} (h : isDigitChar c = true) :
    digitChar (digitVal c) = c := by
  have h48 := (isDigitChar_toNat h).1
  have heq : 48 + digitVal c = c.toNat := by unfold digitVal; omega
  rw [digitChar, heq, Char.ofNat_toNat]

theorem isDigitChar_ne_sign {c : Char} (h : isDigitChar c = true) :
    c ≠ '+' ∧ c ≠ '-' := by
  have := isDigitChar_toNat h
  constructor <;> rintro rfl <;> simp_all

theorem natPart?_digits (cs : Str) (hne : cs ≠ []) (h : cs.all isDigitChar = true) :
    natPart? cs = some (digitsVal cs) := by
  simp [natPart?, hne, h]

theorem atoi?_one {c : Char} (h : isDigitChar c = true) :
    atoi? [c] = some (Int.ofNat (digitVal c)) := by
  obtain ⟨hp, hm⟩ := isDigitChar_ne_sign h
  have hd := digitVal_le h
  have hv : digitsVal [c] = digitVal c := by simp [digitsVal]
  simp only [atoi?, if_neg hp, if_neg hm,
    natPart?_digits [c] (by simp) (by simp [h]), hv]
  simp [show digitVal c ≤ 9223372036854775807 by omega]

theorem atoi?_two {c0 c1 : Char} (h0 : isDigitChar c0 = true) (h1 : isDigitChar c1 = true) :
    atoi? [c0, c1] = some (Int.ofNat (10 * digitVal c0 + digitVal c1)) := by
  obtain ⟨hp, hm⟩ := isDigitChar_ne_sign h0
  have hd0 := digitVal_le h0
  have hd1 := digitVal_le h1
  have hval : digitsVal [c0, c1] = 10 * digitVal c0 + digitVal c1 := by
    simp [digitsVal]; omega
  simp only [atoi?, if_neg hp, if_neg hm,
    natPart?_digits [c0, c1] (by simp) (by simp [h0, h1]), hval]
  simp [show 10 * digitVal c0 + digitVal c1 ≤ 9223372036854775807 by omega]

theorem isValidNumber_iff {cs : Str} :
    isValidNumber cs = true ↔ ∀ c ∈ cs, isDigitChar c = true := by
  simp only [isValidNumber, isDigitChar, List.all_eq_true, Bool.not_eq_true',
    Bool.or_eq_false_iff, decide_eq_false_iff_not, not_lt, Bool.and_eq_true,
    decide_eq_true_eq]

theorem pad02_ofNat (v : Nat) (h : v ≤ 99) : pad02 (v : Int) = padTwoSpec v := by
  have H : ∀ x : Fin 100, pad02 (x.val : Int) = padTwoSpec x.val := by decide
  exact H ⟨v, by omega⟩

theorem padTwoSpec_digits {c0 c1 : Char} (h0 : isDigitChar c0 = true)
    (h1 : isDigitChar c1 = true) :
    padTwoSpec (10 * digitVal c0 + digitVal c1) = [c0, c1] := by
  have hd1 := digitVal_le h1
  unfold padTwoSpec
  have hdiv : (10 * digitVal c0 + digitVal c1) / 10 = digitVal c0 := by omega
  have hmod : (10 * digitVal c0 + digitVal c1) % 10 = digitVal c1 := by omega
  rw [hdiv, hmod, digitChar_digitVal h0, digitChar_digitVal h1]

/-- The decimal rounder of the source agrees with the casewise description of
the spec on every string of digit characters. -/
theorem formatDecimal_eq_spec (ds : Str) (m : DecimalRoundingMode) (o : Bool)
    (h : isValidNumber ds = true) :
    formatDecimalPartWithRounding ds m o = decimalRoundSpec ds m o := by
  match ds with
  | [] => rfl
  | [c] => rfl
  | [c0, c1] => rfl
  | c0 :: c1 :: c2 :: rest =>
    rw [isValidNumber_iff] at h
    have h0 : isDigitChar c0 = true := h c0 (by simp)
    have h1 : isDigitChar c1 = true := h c1 (by simp)
    have h2 : isDigitChar c2 = true := h c2 (by simp)
    have hd0 := digitVal_le h0
    have hd1 := digitVal_le h1
    have hd2 := digitVal_le h2
    have hne : ¬(rest.length + 1 + 1 + 1 = 2) := by omega
    have hcast1 : (10 * (digitVal c0 : Int) + digitVal c1 + 1)
        = ((10 * digitVal c0 + digitVal c1 + 1 : Nat) : Int) := by push_cast; ring
    have hcast0 : (10 * (digitVal c0 : Int) + digitVal c1)
        = ((10 * digitVal c0 + digitVal c1 : Nat) : Int) := by push_cast; ring
    cases m with
    | RoundDown =>
      simp only [formatDecimalPartWithRounding, decimalRoundSpec, List.length_cons,
        List.take_succ_cons, List.take_zero, List.getD_cons_succ, List.getD_cons_zero,
        atoi?_two h0 h1, atoi?_one h2, Option.getD_some, specRound, specV, specD]
      norm_num
      rw [if_neg hne, if_neg hne,
        if_neg (show ¬(10 * digitVal c0 + digitVal c1 = 100) by omega),
        padTwoSpec_digits h0 h1]
    | RoundUp =>
      simp only [formatDecimalPartWithRounding, decimalRoundSpec, List.length_cons,
        List.take_succ_cons, List.take_zero, List.getD_cons_succ, List.getD_cons_zero,
        atoi?_two h0 h1, atoi?_one h2, Option.getD_some, specRound, specV, specD]
      norm_num
      rw [if_neg hne, if_neg hne]
      by_cases hD : 0 < digitVal c2
      · rw [if_pos hD, if_pos hD]
        by_cases hV : 10 * digitVal c0 + digitVal c1 = 99
        · rw [if_pos (show (100 : Int) ≤ 10 * (digitVal c0 : Int) + (digitVal c1 : Int) + 1 by omega),
            if_pos (show 10 * digitVal c0 + digitVal c1 + 1 = 100 by omega)]
          cases o
          · norm_num
            decide
          · norm_num
        · rw [if_neg (show ¬((100 : Int) ≤ 10 * (digitVal c0 : Int) + (digitVal c1 : Int) + 1) by omega),
            if_neg (show ¬(10 * digitVal c0 + digitVal c1 + 1 = 100) by omega),
            hcast1, pad02_ofNat _ (by omega)]
      · rw [if_neg hD, if_neg hD,
          if_neg (show ¬(10 * digitVal c0 + digitVal c1 = 100) by omega),
          hcast0, pad02_ofNat _ (by omega)]
    | RoundHalf =>
      simp only [formatDecimalPartWithRounding, decimalRoundSpec, List.length_cons,
        List.take_succ_cons, List.take_zero, List.getD_cons_succ, List.getD_cons_zero,
        atoi?_two h0 h1, atoi?_one h2, Option.getD_some, specRound, specV, specD]
      norm_num
      rw [if_neg hne, if_neg hne]
      by_cases hD : 5 ≤ digitVal c2
      · rw [if_pos hD, if_pos hD]
        by_cases hV : 10 * digitVal c0 + digitVal c1 = 99
        · rw [if_pos (show (100 : Int) ≤ 10 * (digitVal c0 : Int) + (digitVal c1 : Int) + 1 by omega),
            if_pos (show 10 * digitVal c0 + digitVal c1 + 1 = 100 by omega)]
          cases o
          · norm_num
            decide
          · norm_num
        · rw [if_neg (show ¬((100 : Int) ≤ 10 * (digitVal c0 : Int) + (digitVal c1 : Int) + 1) by omega),
            if_neg (show ¬(10 * digitVal c0 + digitVal c1 + 1 = 100) by omega),
            hcast1, pad02_ofNat _ (by omega)]
      · rw [if_neg hD, if_neg hD,
          if_neg (show ¬(10 * digitVal c0 + digitVal c1 = 100) by omega),
          hcast0, pad02_ofNat _ (by omega)]

/-- Claim C2: on every fractional string of digit characters the decimal
rounder behaves exactly as the spec's case analysis describes: lengths 0/1/2
are padded or passed through with no carry, and for length > 2 only the first
two digits (value `V`) and the third digit `D` matter, rounded per mode
(TowardZero: never increment; AwayFromZero: increment iff `D > 0`; Nearest:
increment iff `D ≥ 5`), returning the zero-padded result, with `("00", carry)`
or the `"99"` clamp exactly when the rounded value reaches 100. -/
theorem spec2_C2 (ds : Str) (m : DecimalRoundingMode) (o : Bool)
    (h : isValidNumber ds = true) :
    formatDecimalPartWithRounding ds m o = decimalRoundSpec ds m o :=
  formatDecimal_eq_spec ds m o h

/-- Witness for claim C2 at the concrete fraction `"426"`. -/
theorem spec2_C2_witness :
    isValidNumber (str "426") = true ∧
    formatDecimalPartWithRounding (str "426") RoundHalf true
      = decimalRoundSpec (str "426") RoundHalf true :=
  ⟨by decide, spec2_C2 _ _ _ (by decide)⟩

/-- Claim C3 (amended): the boolean returned next to the satang text is a
carry flag — for digit fractions it is `true` exactly when overflow is
allowed, more than two fractional digits are present, and the mode-dependent
rounded value reaches 100.  In the forced-clamp case (overflow disallowed) it
is `false`; `Convert` itself returns only text or an error, and the clamp is
reported only by an optional warning log side effect. -/
theorem spec2_C3 (ds : Str) (m : DecimalRoundingMode) (o : Bool)
    (h : isValidNumber ds = true) :
    ((formatDecimalPartWithRounding ds m o).2 = true ↔
      o = true ∧ 2 < ds.length ∧ specRound ds m = 100) := by
  rw [formatDecimal_eq_spec ds m o h]
  unfold decimalRoundSpec
  by_cases h0 : ds.length = 0
  · simp [h0]
  by_cases h1 : ds.length = 1
  · simp [h0, h1]
  by_cases h2 : ds.length = 2
  · simp [h0, h1, h2]
  have hgt : 2 < ds.length := by
    rcases ds with _ | ⟨a, _ | ⟨b, _ | t⟩⟩ <;> simp_all
  simp only [if_neg h0, if_neg h1, if_neg h2]
  by_cases hr : specRound ds m = 100
  · cases o <;> simp [hr, hgt]
  · simp [hr]

/-- Witness for the amended claim C3: at fraction `"997"`, AwayFromZero mode
and overflow allowed the flag is `true`. -/
theorem spec2_C3_witness :
    isValidNumber (str "997") = true ∧
    ((formatDecimalPartWithRounding (str "997") RoundUp true).2 = true ↔
      true = true ∧ 2 < (str "997").length ∧ specRound (str "997") RoundUp = 100) :=
  ⟨by decide, spec2_C3 _ _ _ (by decide)⟩

/- ### Six-digit group lemmas -/

theorem specWordAt_eq {d : Nat} (p total : Nat) (hp : p ≤ 5) (hd : d ≠ 0) :
    specWordAt d p total = convertDigitAtPosition d (p % 6) p total := by
  have hmod : p % 6 = p := Nat.mod_eq_of_lt (by omega)
  rw [hmod]
  unfold specWordAt convertDigitAtPosition
  by_cases hp0 : p = 0
  · subst hp0
    by_cases h1 : d = 1
    · subst h1
      by_cases h2 : 1 < total
      · simp [h2, unitNames]
      · simp [h2, unitNames]
    · simp [h1, hd, unitNames]
  · by_cases hp1 : p = 1
    · subst hp1
      simp [hd]
    · simp [hd, hp0, hp1]

theorem sixGroupTokens_flatten (total : Nat) (rest : List Nat) (pos : Nat)
    (h : total ≤ pos + 6) :
    List.flatten (sixGroupTokens total rest pos)
      = List.flatten ((List.range rest.length).map fun i =>
          specWordAt (rest.getD i 0) (total - 1 - (pos + i)) total) := by
  induction rest generalizing pos with
  | nil => rfl
  | cons d rest ih =>
    rw [List.length_cons, List.range_succ_eq_map, List.map_cons, List.map_map,
      List.flatten_cons]
    have hmap : ((fun i => specWordAt ((d :: rest).getD i 0) (total - 1 - (pos + i)) total)
          ∘ (· + 1))
        = fun i => specWordAt (rest.getD i 0) (total - 1 - ((pos + 1) + i)) total := by
      funext i
      have : pos + (i + 1) = (pos + 1) + i := by omega
      simp [Function.comp, this]
    rw [hmap, ← ih (pos + 1) (by omega)]
    show List.flatten (sixGroupTokens total (d :: rest) pos)
      = specWordAt d (total - 1 - (pos + 0)) total
        ++ List.flatten (sixGroupTokens total rest (pos + 1))
    conv_lhs => rw [sixGroupTokens]
    by_cases hd : d = 0
    · subst hd
      rw [if_pos rfl]
      simp [specWordAt]
    · rw [if_neg hd]
      have hle : total - pos - 1 ≤ 5 := by omega
      have hsw : specWordAt d (total - 1 - (pos + 0)) total
          = convertDigitAtPosition d ((total - pos - 1) % 6) (total - pos - 1) total := by
        have hpfr : total - 1 - (pos + 0) = total - pos - 1 := by omega
        rw [hpfr, specWordAt_eq (total - pos - 1) total hle hd]
      rw [hsw]
      by_cases ht : convertDigitAtPosition d ((total - pos - 1) % 6) (total - pos - 1) total = []
      · rw [if_pos ht, ht]
        simp
      · rw [if_neg ht, List.flatten_cons]

/-- Claim C8: for every group of 1-6 digits the six-digit converter emits
exactly the per-digit words described by the spec (special ones-word at p=0
for digit 1 in a multi-digit group, tens exceptions at p=1, digit-word plus
unit-word at p≥2, nothing for zero digits), concatenated
most-significant-first; in particular an all-zero group yields the empty
string. -/
theorem spec2_C8 (digits : List Nat) (h1 : 1 ≤ digits.length) (h6 : digits.length ≤ 6) :
    convertSixDigitGroup digits = sixDigitGroupSpec digits := by
  unfold convertSixDigitGroup sixDigitGroupSpec
  have h := sixGroupTokens_flatten digits.length digits 0 (by omega)
  simpa using h

/-- Witness for claim C8 at the concrete group `[3,0,2,1]`. -/
theorem spec2_C8_witness : 1 ≤ ([3, 0, 2, 1] : List Nat).length ∧
    ([3, 0, 2, 1] : List Nat).length ≤ 6 ∧
    convertSixDigitGroup [3, 0, 2, 1] = sixDigitGroupSpec [3, 0, 2, 1] :=
  ⟨by decide, by decide, spec2_C8 [3, 0, 2, 1] (by decide) (by decide)⟩


theorem digitsVal_foldl_lt (cs : Str) (acc : Nat) (h : ∀ c ∈ cs, isDigitChar c = true) :
    cs.foldl (fun a c => a * 10 + digitVal c) acc < (acc + 1) * 10 ^ cs.length := by
  induction cs generalizing acc with
  | nil => simp
  | cons c rest ih =>
    have hd := digitVal_le (h c (by simp))
    have hstep := ih (acc * 10 + digitVal c) (fun x hx => h x (by simp [hx]))
    refine lt_of_lt_of_le hstep ?_
    have hmul : acc * 10 + digitVal c + 1 ≤ (acc + 1) * 10 := by omega
    calc (acc * 10 + digitVal c + 1) * 10 ^ rest.length
        ≤ ((acc + 1) * 10) * 10 ^ rest.length := Nat.mul_le_mul_right _ hmul
      _ = (acc + 1) * 10 ^ (c :: rest).length := by
          rw [List.length_cons, pow_succ]; ring

theorem digitsVal_lt (cs : Str) (h : ∀ c ∈ cs, isDigitChar c = true) :
    digitsVal cs < 10 ^ cs.length := by
  have := digitsVal_foldl_lt cs 0 h
  simpa [digitsVal] using this

theorem trimZeros_digits {cs : Str} (h : ∀ c ∈ cs, isDigitChar c = true) :
    ∀ c ∈ trimZeros cs, isDigitChar c = true := by
  intro c hc
  simp only [trimZeros] at hc
  split at hc
  · simp only [str] at hc
    simp at hc
    subst hc
    decide
  · exact h c ((List.dropWhile_sublist _).subset hc)

theorem utf8Size_of_digit {c : Char} (h : isDigitChar c = true) : c.utf8Size = 1 := by
  have hb := isDigitChar_toNat h
  unfold Char.utf8Size
  rw [if_pos]
  have hv : c.toNat = c.val.toNat := rfl
  exact (show c.val.toNat ≤ 127 by omega)

theorem utf8Len_digits {cs : Str} (h : ∀ c ∈ cs, isDigitChar c = true) :
    utf8Len cs = cs.length := by
  induction cs with
  | nil => rfl
  | cons c rest ih =>
    unfold utf8Len at ih ⊢
    simp only [List.map_cons, List.sum_cons, List.length_cons,
      utf8Size_of_digit (h c (by simp)), ih (fun x hx => h x (by simp [hx]))]
    omega

theorem length_le_utf8Len (cs : Str) : cs.length ≤ utf8Len cs := by
  induction cs with
  | nil => simp [utf8Len]
  | cons c rest ih =>
    unfold utf8Len at ih ⊢
    simp only [List.map_cons, List.sum_cons, List.length_cons]
    have := Char.utf8Size_pos c
    omega

theorem validateMaxValue_short (s : Str)
    (h : utf8Len (trimZeros (integerPartOf s)) < 19) :
    validateMaxValue s = none := by
  have hmax : utf8Len MaxSupportedValue = 19 := by decide
  unfold validateMaxValue
  dsimp only
  unfold trimZeros integerPartOf at h
  dsimp only at h
  rw [hmax, if_neg (by omega), if_neg (by omega)]

theorem validateMaxValue_long (s : Str)
    (h : utf8Len (trimZeros (integerPartOf s)) > 19) :
    ∃ e, validateMaxValue s = some e := by
  have hmax : utf8Len MaxSupportedValue = 19 := by decide
  unfold validateMaxValue
  dsimp only
  unfold trimZeros integerPartOf at h
  dsimp only at h
  rw [hmax, if_pos (by omega)]
  exact ⟨_, rfl⟩

theorem validateMaxValue_19 (s : Str)
    (hd : ∀ c ∈ integerPartOf s, isDigitChar c = true)
    (h : utf8Len (trimZeros (integerPartOf s)) = 19) :
    (validateMaxValue s = none ↔
      digitsVal (trimZeros (integerPartOf s)) ≤ 9223372036854775807) := by
  have hdt := trimZeros_digits hd
  have hrun : (trimZeros (integerPartOf s)).length = 19 := by
    rw [← utf8Len_digits hdt]
    exact h
  have hne : trimZeros (integerPartOf s) ≠ [] := by
    intro hx
    rw [hx] at hrun
    simp at hrun
  have hall : (trimZeros (integerPartOf s)).all isDigitChar = true := by
    rw [List.all_eq_true]
    exact hdt
  have hlt : digitsVal (trimZeros (integerPartOf s)) < 2 ^ 64 := by
    have h1 := digitsVal_lt (trimZeros (integerPartOf s)) hdt
    rw [hrun] at h1
    calc digitsVal (trimZeros (integerPartOf s)) < 10 ^ 19 := h1
      _ < 2 ^ 64 := by norm_num
  have hp : parseUint64? (trimZeros (integerPartOf s))
      = some (digitsVal (trimZeros (integerPartOf s))) := by
    unfold parseUint64?
    rw [if_neg hne, if_pos hall]
    dsimp only
    rw [if_pos hlt]
  have hpm : parseUint64? MaxSupportedValue = some 9223372036854775807 := by decide
  have hmax : utf8Len MaxSupportedValue = 19 := by decide
  unfold validateMaxValue
  dsimp only
  have habb : (if ((splitOnChar '.' s).headD []).dropWhile (fun c => decide (c = '0')) = []
        then str "0" else ((splitOnChar '.' s).headD []).dropWhile (fun c => decide (c = '0')))
      = trimZeros (integerPartOf s) := rfl
  rw [habb, hmax, if_neg (by omega), if_pos (by omega), hp, hpm]
  dsimp only
  split_ifs with hgt
  · exact iff_of_false (by simp) (by omega)
  · exact iff_of_true rfl (by omega)

theorem validateMaxValue_characterize (s : Str)
    (hd : ∀ c ∈ integerPartOf s, isDigitChar c = true) :
    (validateMaxValue s = none ↔
      (trimZeros (integerPartOf s)).length < 19 ∨
      ((trimZeros (integerPartOf s)).length = 19 ∧
        digitsVal (trimZeros (integerPartOf s)) ≤ 9223372036854775807)) := by
  have hb : utf8Len (trimZeros (integerPartOf s)) = (trimZeros (integerPartOf s)).length :=
    utf8Len_digits (trimZeros_digits hd)
  rcases lt_trichotomy (trimZeros (integerPartOf s)).length 19 with hlt | heq | hgt
  · exact iff_of_true (validateMaxValue_short s (by omega)) (Or.inl hlt)
  · rw [validateMaxValue_19 s hd (by omega)]
    constructor
    · intro hle
      exact Or.inr ⟨heq, hle⟩
    · rintro (hbad | ⟨-, hle⟩)
      · omega
      · exact hle
  · obtain ⟨e, he⟩ := validateMaxValue_long s (by omega)
    rw [he]
    constructor
    · intro hx
      cases hx
    · rintro (hbad | ⟨hbad, -⟩) <;> omega

theorem Convert_isOk_iff (s : Str) (m : DecimalRoundingMode) (o : Bool) :
    (Convert s m o).isOk = true ↔ validateMaxValue (removeCommas s) = none := by
  unfold Convert
  cases hv : validateMaxValue (removeCommas s) <;> simp [hv, Except.isOk, Except.toBool]

theorem convertIntegerNumber_invalid {ip : Str} (h : isValidNumber ip = false) :
    convertIntegerNumber ip = [] := by
  simp [convertIntegerNumber, h]

theorem assembleText_zero (ip dp : Str) (h : convertIntegerNumber ip = []) :
    ∃ rest, assembleText ip dp = str "ศูนย์บาท" ++ rest := by
  unfold assembleText
  dsimp only
  rw [h, if_pos rfl]
  have hsb : str "ศูนย์" ++ str "บาท" = str "ศูนย์บาท" := by decide
  split_ifs with hdp hsz
  · exact ⟨str "ถ้วน", by rw [← hsb]⟩
  · exact ⟨str "ศูนย์" ++ str "สตางค์", by rw [← hsb, List.append_assoc]⟩
  · exact ⟨convertDecimalPart dp ++ str "สตางค์", by rw [← hsb, List.append_assoc]⟩

/-- Claim C9 (amended): for every input whose integer part (after comma
stripping) contains a character outside 0-9, is shorter than 19 UTF-8 bytes
after removing leading zeros (Go's `len()` counts bytes), and for which the
rounding step does not replace the integer part (no fractional part, or no
carry, or an integer part that `strconv.Atoi` rejects), `Convert` returns a
nil error and a result whose baht portion is "ศูนย์" — invalid digits are
silently converted to zero baht, not reported as an error. -/
theorem spec2_C9 (s : Str) (m : DecimalRoundingMode) (o : Bool)
    (hnd : isValidNumber (integerPartOf (removeCommas s)) = false)
    (hlen : utf8Len (trimZeros (integerPartOf (removeCommas s))) < 19)
    (hnc : (splitOnChar '.' (removeCommas s)).length ≤ 1 ∨
      (formatDecimalPartWithRounding ((splitOnChar '.' (removeCommas s)).getD 1 []) m o).2 = false ∨
      atoi? (integerPartOf (removeCommas s)) = none) :
    ∃ rest, Convert s m o = .ok (str "ศูนย์บาท" ++ rest) := by
  unfold Convert
  dsimp only
  rw [validateMaxValue_short _ hlen]
  dsimp only
  have hst : (if 1 < (splitOnChar '.' (removeCommas s)).length then
        applyOverflow ((splitOnChar '.' (removeCommas s)).headD [])
          (formatDecimalPartWithRounding ((splitOnChar '.' (removeCommas s)).getD 1 []) m o)
      else ((splitOnChar '.' (removeCommas s)).headD [], [])).1
      = integerPartOf (removeCommas s) := by
    rcases hnc with h1 | h2 | h3
    · rw [if_neg (by omega)]
      rfl
    · split_ifs with hl
      · unfold applyOverflow
        rw [h2]
        simp [integerPartOf]
      · rfl
    · split_ifs with hl
      · unfold applyOverflow
        split_ifs with hfd
        · rw [show atoi? ((splitOnChar '.' (removeCommas s)).headD []) = none from h3]
          rfl
        · rfl
      · rfl
  rw [hst]
  obtain ⟨r, hr⟩ := assembleText_zero (integerPartOf (removeCommas s)) _
    (convertIntegerNumber_invalid hnd)
  exact ⟨r, by rw [hr]⟩


/-- Witness for the amended claim C9 at the concrete input `"abc"`. -/
theorem spec2_C9_witness :
    isValidNumber (integerPartOf (removeCommas (str "abc"))) = false ∧
    utf8Len (trimZeros (integerPartOf (removeCommas (str "abc")))) < 19 ∧
    (splitOnChar '.' (removeCommas (str "abc"))).length ≤ 1 ∧
    (∃ rest, Convert (str "abc") RoundHalf false = .ok (str "ศูนย์บาท" ++ rest)) :=
  ⟨by decide, by decide, by decide,
    spec2_C9 (str "abc") RoundHalf false (by decide) (by decide) (Or.inl (by decide))⟩

/-- Claim C9 counterexample: `"abcdefghijklmnopqrs"` has a non-digit integer
part of exactly the maximum digit count 19, yet `Convert` returns an error
(the length-19 path falls back to a byte-lexicographic comparison against
`MaxSupportedValue`, and letters compare greater than digits); the 7-character
Thai input `"ภภภภภภภ"` is far below 19 characters but occupies 21 bytes, so
the byte-length check also rejects it; and for `"-0.995"` with overflow
allowed the carry rewrites the integer part so the result is one baht, not
zero baht. -/
theorem spec2_C9_counterexample :
    isValidNumber (integerPartOf (removeCommas (str "abcdefghijklmnopqrs"))) = false ∧
    (integerPartOf (removeCommas (str "abcdefghijklmnopqrs"))).length = 19 ∧
    (Convert (str "abcdefghijklmnopqrs") RoundHalf false).isOk = false ∧
    isValidNumber (integerPartOf (removeCommas (str "ภภภภภภภ"))) = false ∧
    (integerPartOf (removeCommas (str "ภภภภภภภ"))).length = 7 ∧
    utf8Len (integerPartOf (removeCommas (str "ภภภภภภภ"))) = 21 ∧
    (Convert (str "ภภภภภภภ") RoundHalf false).isOk = false ∧
    isValidNumber (integerPartOf (removeCommas (str "-0.995"))) = false ∧
    Convert (str "-0.995") RoundHalf true = .ok (str "หนึ่งบาทถ้วน") :=
  ⟨by decide, by decide, by decide, by decide, by decide, by decide, by decide,
    by decide, by decide⟩

/-- Claim C6 (amended): for inputs whose integer part is all digits, `Convert`
succeeds iff the integer part after removing leading zeros is shorter than 19
digits, or is exactly 19 digits with value at most `MaxSupportedValue`
(9223372036854775807); otherwise it fails with the exceeds-maximum error.
The original claim's "any length ≤ 19 succeeds" is refuted by 19-digit values
above the int64 maximum. -/
theorem spec2_C6 (s : Str) (m : DecimalRoundingMode) (o : Bool)
    (hd : ∀ c ∈ integerPartOf (removeCommas s), isDigitChar c = true) :
    ((Convert s m o).isOk = true ↔
      (trimZeros (integerPartOf (removeCommas s))).length < 19 ∨
      ((trimZeros (integerPartOf (removeCommas s))).length = 19 ∧
        digitsVal (trimZeros (integerPartOf (removeCommas s))) ≤ 9223372036854775807)) :=
  (Convert_isOk_iff s m o).trans (validateMaxValue_characterize (removeCommas s) hd)

/-- Witness for the amended claim C6 at the concrete input `"123.45"`. -/
theorem spec2_C6_witness :
    (∀ c ∈ integerPartOf (removeCommas (str "123.45")), isDigitChar c = true) ∧
    ((Convert (str "123.45") RoundHalf false).isOk = true ↔
      (trimZeros (integerPartOf (removeCommas (str "123.45")))).length < 19 ∨
      ((trimZeros (integerPartOf (removeCommas (str "123.45")))).length = 19 ∧
        digitsVal (trimZeros (integerPartOf (removeCommas (str "123.45"))))
          ≤ 9223372036854775807)) :=
  ⟨by decide, spec2_C6 (str "123.45") RoundHalf false (by decide)⟩

/-- Claim C6 counterexample: `"9999999999999999999"` is all digits with length
19 (within the claimed 19-digit bound) yet `Convert` rejects it, because the
code also enforces the numeric bound `MaxSupportedValue`. -/
theorem spec2_C6_counterexample :
    (∀ c ∈ integerPartOf (removeCommas (str "9999999999999999999")), isDigitChar c = true) ∧
    (integerPartOf (removeCommas (str "9999999999999999999"))).length = 19 ∧
    (Convert (str "9999999999999999999") RoundHalf false).isOk = false :=
  ⟨by decide, by decide, by decide⟩


theorem groupAt_sixWindow (digits : List Nat) (g : Nat) :
    groupAt digits g = sixWindow digits (digits.length - 6 * g) := rfl

theorem countLoop_zero (digits : List Nat) (fuel count : Nat) :
    countNonZeroGroupsLoop digits fuel 0 count = count := by
  cases fuel <;> simp [countNonZeroGroupsLoop]

theorem buildLoop_zero (digits : List Nat) (fuel j : Nat) (acc : List Str) :
    buildThaiTextLoop digits fuel 0 j acc = acc := by
  cases fuel <;> simp [buildThaiTextLoop]

theorem countLoop_spec (digits : List Nat) :
    ∀ n j fuel count, numGroups digits - j = n → digits.length - 6 * j ≤ fuel →
    countNonZeroGroupsLoop digits fuel (digits.length - 6 * j) count
      = count + ((List.range n).filter
          (fun i => (groupAt digits (j + i)).any (fun d => d != 0))).length := by
  intro n
  induction n with
  | zero =>
    intro j fuel count hn hf
    have hz : digits.length - 6 * j = 0 := by
      unfold numGroups at hn
      omega
    rw [hz, countLoop_zero]
    simp
  | succ n ih =>
    intro j fuel count hn hf
    have hpos : 0 < digits.length - 6 * j := by
      unfold numGroups at hn
      omega
    obtain ⟨f, rfl⟩ : ∃ f, fuel = f + 1 := ⟨fuel - 1, by omega⟩
    rw [countNonZeroGroupsLoop, if_neg (by omega)]
    rw [show digits.length - 6 * j - 6 = digits.length - 6 * (j + 1) from by omega,
      ← groupAt_sixWindow]
    rw [ih (j + 1) f _ (by unfold numGroups at hn ⊢; omega) (by omega)]
    rw [List.range_succ_eq_map, List.filter_cons, List.filter_map]
    have hfun : ((fun i => (groupAt digits (j + i)).any (fun d => d != 0)) ∘ (· + 1))
        = fun i => (groupAt digits (j + 1 + i)).any (fun d => d != 0) := by
      funext i
      simp only [Function.comp]
      rw [show j + (i + 1) = j + 1 + i from by omega]
    rw [hfun]
    by_cases hz : (groupAt digits (j + 0)).any (fun d => d != 0) = true
    · rw [show j + 0 = j from by omega] at hz
      simp [hz]
      omega
    · rw [show j + 0 = j from by omega] at hz
      simp [hz]

theorem countNonZeroGroups_spec (digits : List Nat) :
    countNonZeroGroups digits = nonZeroGroupCountSpec digits := by
  unfold countNonZeroGroups nonZeroGroupCountSpec
  have h := countLoop_spec digits (numGroups digits) 0 digits.length 0 (by omega) (by omega)
  simp only [Nat.mul_zero, Nat.sub_zero, Nat.zero_add] at h
  rw [h]

theorem digitNames_ne_nil {d : Nat} (h1 : 1 ≤ d) (h9 : d ≤ 9) : digitNames d ≠ [] := by
  interval_cases d <;> decide

theorem specWordAt_ne_nil {d : Nat} (p total : Nat) (hd1 : 1 ≤ d)
    (hd9 : d ≤ 9) : specWordAt d p total ≠ [] := by
  have hdn := digitNames_ne_nil hd1 hd9
  unfold specWordAt
  rw [if_neg (by omega)]
  by_cases hp0 : p = 0
  · rw [if_pos hp0]
    split_ifs
    · decide
    · exact hdn
  · rw [if_neg hp0]
    by_cases hp1 : p = 1
    · rw [if_pos hp1]
      split_ifs
      · decide
      · decide
      · simp [hdn]
    · rw [if_neg hp1]
      simp [hdn]

theorem convertSixDigitGroup_nil (grp : List Nat) (hb : ∀ d ∈ grp, d ≤ 9)
    (hl : grp.length ≤ 6) :
    (convertSixDigitGroup grp = [] ↔ grp.any (fun d => d != 0) = false) := by
  unfold convertSixDigitGroup
  rw [sixGroupTokens_flatten grp.length grp 0 (by omega), List.flatten_eq_nil_iff]
  constructor
  · intro h
    rw [List.any_eq_false]
    intro x hx
    simp only [bne_iff_ne, ne_eq, not_not]
    by_contra hxne
    obtain ⟨i, hi, hxi⟩ := List.mem_iff_getElem.mp hx
    have hmem : specWordAt (grp.getD i 0) (grp.length - 1 - (0 + i)) grp.length
        ∈ (List.range grp.length).map fun i =>
          specWordAt (grp.getD i 0) (grp.length - 1 - (0 + i)) grp.length :=
      List.mem_map_of_mem _ (List.mem_range.mpr hi)
    have hnil := h _ hmem
    rw [List.getD_eq_getElem grp 0 hi, hxi] at hnil
    exact specWordAt_ne_nil (grp.length - 1 - (0 + i)) grp.length (by omega)
      (hb x hx) hnil
  · intro h t ht
    rw [List.any_eq_false] at h
    obtain ⟨i, hi, rfl⟩ := List.mem_map.mp ht
    rw [List.mem_range] at hi
    have hz : grp.getD i 0 = 0 := by
      rw [List.getD_eq_getElem grp 0 hi]
      have := h _ (List.getElem_mem hi)
      simpa using this
    rw [hz]
    rfl

theorem appendLan_eq (t : Str) (g : Nat) : appendLan t g = t ++ lanRepeat g := by
  induction g with
  | zero => simp [appendLan, lanRepeat]
  | succ n ih =>
    rw [appendLan, ih, List.append_assoc]
    unfold lanRepeat
    rw [List.replicate_succ', List.flatten_append]
    simp

theorem buildLoop_spec (digits : List Nat) (hb : ∀ d ∈ digits, d ≤ 9) :
    ∀ n j fuel acc, numGroups digits - j = n → digits.length - 6 * j ≤ fuel →
    buildThaiTextLoop digits fuel (digits.length - 6 * j) j acc
      = (((List.range n).reverse).map (fun i => millionTokenSpec digits (j + i))).filter
          (fun t => t ≠ []) ++ acc := by
  intro n
  induction n with
  | zero =>
    intro j fuel acc hn hf
    have hz : digits.length - 6 * j = 0 := by unfold numGroups at hn; omega
    rw [hz, buildLoop_zero]
    simp
  | succ n ih =>
    intro j fuel acc hn hf
    have hpos : 0 < digits.length - 6 * j := by unfold numGroups at hn; omega
    obtain ⟨f, rfl⟩ : ∃ f, fuel = f + 1 := ⟨fuel - 1, by omega⟩
    rw [buildThaiTextLoop, if_neg (by omega)]
    dsimp only
    rw [show digits.length - 6 * j - 6 = digits.length - 6 * (j + 1) from by omega,
      ← groupAt_sixWindow]
    rw [ih (j + 1) f _ (by unfold numGroups at hn ⊢; omega) (by omega)]
    rw [List.range_succ_eq_map, List.reverse_cons, ← List.map_reverse,
      List.map_append, List.map_map, List.filter_append]
    have hfun : ((fun i => millionTokenSpec digits (j + i)) ∘ (· + 1))
        = fun i => millionTokenSpec digits (j + 1 + i) := by
      funext i
      simp only [Function.comp]
      rw [show j + (i + 1) = j + 1 + i from by omega]
    rw [hfun, List.append_assoc]
    congr 1
    -- remaining: result-update = filter of the singleton token ++ acc
    have hbw : ∀ d ∈ groupAt digits j, d ≤ 9 := by
      intro d hd
      exact hb d (List.drop_subset _ _ (List.take_subset _ _ hd))
    have hlw : (groupAt digits j).length ≤ 6 := by
      unfold groupAt
      dsimp only
      rw [List.length_take]
      omega
    simp only [List.map_cons, List.map_nil]
    rw [show j + 0 = j from by omega]
    by_cases hgz : (groupAt digits j).any (fun d => d != 0) = true
    · have hne : convertSixDigitGroup (groupAt digits j) ≠ [] := by
        intro hx
        rw [(convertSixDigitGroup_nil _ hbw hlw).mp hx] at hgz
        cases hgz
      rw [if_neg hne]
      unfold millionTokenSpec
      rw [if_pos hgz, countNonZeroGroups_spec]
      have htok : (if nonZeroGroupCountSpec digits > 1 then
            if j > 0 then convertSixDigitGroup (groupAt digits j) ++ str "ล้าน"
            else convertSixDigitGroup (groupAt digits j)
          else appendLan (convertSixDigitGroup (groupAt digits j)) j)
          = convertSixDigitGroup (groupAt digits j) ++ millionSuffixSpec digits j := by
        unfold millionSuffixSpec
        by_cases hc : nonZeroGroupCountSpec digits > 1
        · rw [if_pos hc, if_pos hc]
          cases j with
          | zero => simp
          | succ k => simp
        · rw [if_neg hc, if_neg hc, appendLan_eq]
      rw [htok]
      rw [List.filter_cons]
      rw [if_pos (by
        simp only [decide_eq_true_eq]
        intro hx
        exact hne (List.append_eq_nil.mp hx).1)]
      rfl
    · have hnil : convertSixDigitGroup (groupAt digits j) = [] :=
        (convertSixDigitGroup_nil _ hbw hlw).mpr (by simpa using hgz)
      rw [if_pos hnil]
      unfold millionTokenSpec
      rw [if_neg hgz]
      rfl


/-- Claim C1: for every digit sequence longer than 6 digits, `buildThaiText`
partitions it into 6-digit groups from the right and produces, for each
non-zero group at distance `g` from the right, the group's six-digit text
followed by its million suffix — exactly one "ล้าน" for every non-rightmost
group when more than one group is non-zero, and `g` repetitions of "ล้าน" for
the single non-zero group otherwise — concatenated most-significant-first. -/
theorem spec2_C1 (digits : List Nat) (h6 : 6 < digits.length)
    (hb : ∀ d ∈ digits, d ≤ 9) :
    buildThaiText digits = millionRuleSpec digits := by
  unfold buildThaiText
  rw [if_neg (by omega)]
  have h := buildLoop_spec digits hb (numGroups digits) 0 digits.length []
    (by omega) (by omega)
  simp only [Nat.mul_zero, Nat.sub_zero, Nat.zero_add] at h
  rw [h, List.append_nil]
  unfold millionRuleSpec
  exact List.flatten_filter_ne_nil

/-- Witness for claim C1 at the concrete digit sequence of 1234567. -/
theorem spec2_C1_witness : 6 < ([1, 2, 3, 4, 5, 6, 7] : List Nat).length ∧
    (∀ d ∈ ([1, 2, 3, 4, 5, 6, 7] : List Nat), d ≤ 9) ∧
    buildThaiText [1, 2, 3, 4, 5, 6, 7] = millionRuleSpec [1, 2, 3, 4, 5, 6, 7] :=
  ⟨by decide, by decide, spec2_C1 _ (by decide) (by decide)⟩
